import Mathlib

/-!
Verification of the GAN-midi backend core (chord analyzer, Markov melody
generator, variation-module registry) against its natural-language
specification.  Each definition is a shallow embedding of the corresponding
Python function in `backend/app/midi.py`, `backend/app/variation/markov.py`
or `backend/app/variation/manager.py`.
-/

namespace GanMidi

/-! ## Chord analyzer (`backend/app/midi.py`) -/

/-- `NOTE_NAMES` from `midi.py`. -/
def NOTE_NAMES : List String :=
  ["C", "C#", "D", "D#"] ++ ["E", "F", "F#", "G"] ++ ["G#", "A", "A#", "B"]

/-- `NOTE_NAMES[n]` (indices used are always < 12). -/
def noteName (n : Nat) : String := NOTE_NAMES.getD n ""

/-- `_normalize_pitch_set`: `tuple(sorted({p % 12 for p in pitches}))`.
The Python `set` argument is modelled as a list; `dedup` plus an ascending
sort yields exactly the sorted set of residues. -/
def normalizePitchSet (pitches : List Nat) : List Nat :=
  ((pitches.map (· % 12)).dedup).insertionSort (· ≤ ·)

/-- One candidate root of the loop body of `_chord_name_from_pitch_classes`:
compute `sorted((p - root) % 12 for p in pcs)`, keep the first three
intervals, and look them up in the fixed table.  `none` means this root
matched no table entry.  All pitch classes involved are < 12, so
`(p + 12 - root) % 12` agrees with Python's `(p - root) % 12`. -/
def tryRoot (pcs : List Nat) (root : Nat) : Option String :=
  let intervals := (pcs.map (fun p => (p + 12 - root) % 12)).insertionSort (· ≤ ·)
  let triad := intervals.take 3
  if triad = [0, 3, 7] then some (noteName root ++ "m")
  else if triad = [0, 4, 7] then some (noteName root)
  else if triad = [0, 4, 7, 11] then some (noteName root ++ "maj7")
  else if triad = [0, 3, 7, 10] then some (noteName root ++ "m7")
  else none

/-- `_chord_name_from_pitch_classes`. -/
def chordNameFromPitchClasses (pitches : List Nat) : String :=
  if pitches.isEmpty then "N.C."
  else
    let pcs := normalizePitchSet pitches
    match pcs.findSome? (tryRoot pcs) with
    | some name => name
    | none => String.intercalate "+" (pcs.map noteName)

/-! ## Tempo discovery (`_find_tempo` in `midi.py`) -/

/-- A decoded MIDI message as far as the analyzed code inspects it:
`time` is the delta-time in ticks. -/
inductive MidiMessage where
  | noteOn (time note velocity : Nat)
  | setTempo (time tempo : Nat)
  | other (time : Nat)
deriving DecidableEq, Repr

/-- Delta-time of a message. -/
def MidiMessage.time : MidiMessage → Nat
  | .noteOn t _ _ => t
  | .setTempo t _ => t
  | .other t => t

/-- The slice of `mido.MidiFile` that `_find_tempo` reads. -/
structure MidiFile where
  ticksPerBeat : Nat
  tracks : List (List MidiMessage)
deriving DecidableEq, Repr

/-- `mido.bpm2tempo` (external library): microseconds per quarter note.
At `bpm = 120` the division is exact, so rounding is irrelevant. -/
def bpm2tempo (bpm : Nat) : Nat := 60000000 / bpm

/-- Inner loop of `_find_tempo` over one track.  The accumulated `time`
variable is carried exactly as in the source, where it is never read. -/
def findTempoInTrack : Nat → List MidiMessage → Option Nat
  | _, [] => none
  | time, msg :: rest =>
    match msg with
    | .setTempo _ tempo => some tempo
    | m => findTempoInTrack (time + m.time) rest

/-- `_find_tempo`: scan the tracks in order; within each track scan the
messages in order; return the first `set_tempo` value found, else the
120-BPM default. -/
def findTempo (m : MidiFile) : Nat :=
  match m.tracks.findSome? (findTempoInTrack 0) with
  | some tempo => tempo
  | none => bpm2tempo 120

/-- Tempo events of one track with their absolute tick times. -/
def tempoEventsAbs : Nat → List MidiMessage → List (Nat × Nat)
  | _, [] => []
  | time, msg :: rest =>
    let t := time + msg.time
    match msg with
    | .setTempo _ tempo => (t, tempo) :: tempoEventsAbs t rest
    | _ => tempoEventsAbs t rest

/-- Earliest element by absolute time (ties resolved in favour of the
earlier-listed event). -/
def minByTime : List (Nat × Nat) → Option (Nat × Nat)
  | [] => none
  | e :: rest => some (rest.foldl (fun best x => if x.1 < best.1 then x else best) e)

/-- Modelled from the spec: "tempo is discovered by scanning all events in
temporal order for the first tempo-change event; if none exists, use the
default".  This is the spec's reading of `_find_tempo`, used to compare
against the code's behaviour: the temporally earliest tempo event across
all tracks. -/
def findTempoSpec (m : MidiFile) : Nat :=
  match minByTime ((m.tracks.map (tempoEventsAbs 0)).flatten) with
  | some e => e.2
  | none => bpm2tempo 120

/-- The tempo values of one track in event order. -/
def tempoList (track : List MidiMessage) : List Nat :=
  track.filterMap fun msg =>
    match msg with
    | .setTempo _ tempo => some tempo
    | _ => none

/-! ## Markov melody generator (`backend/app/variation/markov.py`) -/

/-- The exceptions the Python code can raise on the analyzed paths.
`outOfFuel` is an artifact of the fuel-based embedding of the unbounded
`while` loop in `_sample_notes`; the theorems below supply enough fuel that
it is never reached on the inputs they consider. -/
inductive PyError where
  | valueError (msg : String)
  | indexError
  | outOfFuel
deriving DecidableEq, Repr

/-- `random.Random(seed)` modelled as a deterministic stream of naturals
(the Mersenne-Twister output determined by the seed) together with a
position.  Each `choice` consumes one stream element. -/
structure Rng where
  stream : Nat → Nat
  idx : Nat

/-- Fresh generator over a given stream, as `random.Random(seed)` yields. -/
def mkRng (stream : Nat → Nat) : Rng := ⟨stream, 0⟩

/-- `rng.choice(l)`: uniform choice from a list; raises `IndexError` on an
empty sequence. -/
def Rng.choice {α : Type} [Inhabited α] (r : Rng) (l : List α) :
    Except PyError (α × Rng) :=
  if l.length = 0 then .error .indexError
  else .ok (l.getD (r.stream r.idx % l.length) default, ⟨r.stream, r.idx + 1⟩)

/-- Python `l[:k]` (slice with possibly negative stop index). -/
def pySlice {α : Type} (l : List α) (k : Int) : List α :=
  if 0 ≤ k then l.take k.toNat else l.take (l.length - (-k).toNat)

/-- The last `n` elements of a list: the contents of
`collections.deque(l, maxlen := n)`. -/
def takeLast {α : Type} (n : Nat) (l : List α) : List α :=
  l.drop (l.length - n)

/-- Lookup in an insertion-ordered association list (a Python `dict`). -/
def assocGet (m : List (List Nat × List Nat)) (k : List Nat) : Option (List Nat) :=
  match m with
  | [] => none
  | (k', v) :: rest => if k' = k then some v else assocGet rest k

/-- `transitions[k].append(v)` on a `defaultdict(list)`: append to the
existing entry, or create the key (at the end, preserving insertion
order) with a singleton list. -/
def assocAppend (m : List (List Nat × List Nat)) (k : List Nat) (v : Nat) :
    List (List Nat × List Nat) :=
  match m with
  | [] => [(k, [v])]
  | (k', vs) :: rest =>
    if k' = k then (k', vs ++ [v]) :: rest else (k', vs) :: assocAppend rest k v

/-- Loop body of `_build_model`: slide the window (a deque with
`maxlen = stateSize`) over the notes, recording a transition whenever the
window is full before the next note is appended. -/
def buildLoop (stateSize : Nat) :
    List Nat → List Nat → List (List Nat × List Nat) → List (List Nat × List Nat)
  | [], _, m => m
  | note :: rest, window, m =>
    let m' := if window.length = stateSize then assocAppend m window note else m
    buildLoop stateSize rest (takeLast stateSize (window ++ [note])) m'

/-- `_build_model`. -/
def buildModel (sequence : List Nat) (stateSize : Nat) :
    List (List Nat × List Nat) :=
  buildLoop stateSize sequence [] []

/-- Loop of `_sample_notes`, with explicit fuel for the `while` loop.
`maxlen` is the current deque bound of `state` (it is re-derived from
`len(state)` whenever the deque is rebuilt in the recovery branch, exactly
as the source does). -/
def sampleLoop (model : List (List Nat × List Nat)) (len : Int) :
    Nat → List Nat → Nat → List Nat → Rng → Except PyError (List Nat)
  | 0, _, _, output, _ =>
    if (output.length : Int) < len then .error .outOfFuel
    else .ok (pySlice output len)
  | fuel + 1, state, maxlen, output, rng =>
    if (output.length : Int) < len then
      let options := (assocGet model state).getD []
      if options.isEmpty then
        match rng.choice (model.map Prod.fst) with
        | .error e => .error e
        | .ok (k, rng') =>
          let state' := takeLast state.length k
          sampleLoop model len fuel state' state.length (output ++ state') rng'
      else
        match rng.choice options with
        | .error e => .error e
        | .ok (next, rng') =>
          sampleLoop model len fuel (takeLast maxlen (state ++ [next])) maxlen
            (output ++ [next]) rng'
    else
      .ok (pySlice output len)

/-- `_sample_notes`: start from the seed state, extend until the output
reaches `len` notes, truncate with `output[:length]`. -/
def sampleNotes (model : List (List Nat × List Nat)) (seedState : List Nat)
    (len : Int) (rng : Rng) : Except PyError (List Nat) :=
  sampleLoop model len (len.toNat + 1) seedState seedState.length seedState rng

/-- The parameter mapping passed to `generate`, restricted to the keys the
code reads (other keys are ignored by `parameters.get`). -/
structure Params where
  state_size : Option Int
  length : Option Int
  seed : Option Int
deriving DecidableEq, Repr

/-- `int(parameters.get("state_size", 2))`. -/
def getParamStateSize (p : Params) : Int := p.state_size.getD 2

/-- `int(parameters.get("length", 32))`. -/
def getParamLength (p : Params) : Int := p.length.getD 32

/-- `int(parameters.get("seed", 42))`. -/
def getParamSeed (p : Params) : Int := p.seed.getD 42

/-- Declared parameter metadata: (name, minimum, maximum, default), as in
`MarkovMelodyModule.describe_parameters`. -/
def describeParameters : List (String × Int × Int × Int) :=
  [("state_size", 1, 4, 2), ("length", 8, 128, 32), ("seed", 0, 2 ^ 31 - 1, 42)]

/-- `MarkovMelodyModule.generate`, from the point where the note sequence
has been extracted from the decoded MIDI (decoding and re-encoding are the
external codec).  `mt` maps a seed to the random stream that
`random.Random(seed)` deterministically produces.  A negative `state_size`
makes `deque(maxlen=state_size)` raise `ValueError` in Python, modelled by
the corresponding guard. -/
def markovGenerate (mt : Int → Nat → Nat) (sequence : List Nat) (p : Params) :
    Except PyError (List Nat) :=
  if sequence.length < 4 then
    .error (.valueError "Input MIDI is too short to build a Markov model")
  else if getParamStateSize p < 0 then
    .error (.valueError "maxlen must be non-negative")
  else
    sampleNotes (buildModel sequence (getParamStateSize p).toNat)
      (pySlice sequence (getParamStateSize p)) (getParamLength p)
      (mkRng (mt (getParamSeed p)))

/-! ## Variation-module registry (`backend/app/variation/manager.py`) -/

/-- A module instance created during discovery.  `className` identifies the
class that was instantiated (by its declared `name`), and `birth` records
which discovery run called the constructor — two instances of the same class
created by different runs are distinct Python objects, and this field models
that object identity. -/
structure ModuleInstance where
  className : String
  birth : Nat
deriving DecidableEq, Repr

/-- The mutable state of a `VariationRegistry`: the insertion-ordered
`_modules` dict plus a count of how many times `_discover` has run (the
count is a ghost field used to observe re-scanning; it does not influence
the returned values). -/
structure Registry where
  modules : List (String × ModuleInstance)
  discoverRuns : Nat
deriving DecidableEq, Repr

/-- `VariationRegistry(package)`: `_modules` starts empty and no discovery
has run. -/
def Registry.init : Registry := ⟨[], 0⟩

/-- `dict[k] = v` on an insertion-ordered dict: replace in place, or append
a new entry. -/
def assocSet (m : List (String × ModuleInstance)) (k : String) (v : ModuleInstance) :
    List (String × ModuleInstance) :=
  match m with
  | [] => [(k, v)]
  | (k', v') :: rest =>
    if k' = k then (k, v) :: rest else (k', v') :: assocSet rest k v

/-- Dict lookup by module name (`self._modules[name]`; `none` models the
`KeyError` on a missing key). -/
def assocFind (m : List (String × ModuleInstance)) (k : String) : Option ModuleInstance :=
  match m with
  | [] => none
  | (k', v) :: rest => if k' = k then some v else assocFind rest k

/-- `_discover`: for each `VariationModule` subclass found on the scan path
(`classes`, in scan order, identified by the `name` each instance declares),
instantiate it and store it under its name.  Existing entries are not
cleared first, exactly as in the source. -/
def Registry.discover (classes : List String) (r : Registry) : Registry :=
  let run := r.discoverRuns + 1
  { modules := classes.foldl (fun m cls => assocSet m cls ⟨cls, run⟩) r.modules,
    discoverRuns := run }

/-- `VariationRegistry.all`: discover if the cache is empty, then return the
cached instances.  The updated registry state is returned alongside. -/
def Registry.allModules (classes : List String) (r : Registry) :
    Registry × List ModuleInstance :=
  let r' := if r.modules.isEmpty then r.discover classes else r
  (r', r'.modules.map Prod.snd)

/-- `VariationRegistry.get`: discover if the cache is empty, then look the
name up (`none` models the `KeyError`). -/
def Registry.getModule (classes : List String) (r : Registry) (name : String) :
    Registry × Option ModuleInstance :=
  let r' := if r.modules.isEmpty then r.discover classes else r
  (r', assocFind r'.modules name)

/-- Multi-track counterexample input for tempo discovery: the first track's
tempo event lies at absolute tick 100, the second track's at tick 0. -/
def tempoCounterexampleFile : MidiFile :=
  ⟨480, [[.other 50, .setTempo 50 600000], [.setTempo 0 400000]]⟩

/-! ## Helper lemmas -/

theorem findTempoInTrack_eq_head (t : List MidiMessage) :
    ∀ time, findTempoInTrack time t = (tempoList t).head? := by
  induction t with
  | nil => intro time; rfl
  | cons msg rest ih =>
    intro time
    cases msg with
    | setTempo t' tempo => rfl
    | noteOn t' n v => simp [findTempoInTrack, tempoList, List.filterMap] at ih ⊢; exact ih _
    | other t' => simp [findTempoInTrack, tempoList, List.filterMap] at ih ⊢; exact ih _

theorem tracks_findSome_eq_flatten_head (tracks : List (List MidiMessage)) :
    tracks.findSome? (findTempoInTrack 0) = ((tracks.map tempoList).flatten).head? := by
  induction tracks with
  | nil => rfl
  | cons t ts ih =>
    rw [List.findSome?_cons, findTempoInTrack_eq_head]
    cases h : (tempoList t).head? with
    | some tempo =>
      cases htl : tempoList t with
      | nil => rw [htl] at h; cases h
      | cons x xs =>
        rw [htl] at h
        simp at h
        simp [htl, h]
    | none =>
      cases htl : tempoList t with
      | nil => simp [htl, ih]
      | cons x xs => rw [htl] at h; cases h

theorem pySlice_nonneg {α : Type} (l : List α) {k : Int} (h : 0 ≤ k) :
    pySlice l k = l.take k.toNat := by
  simp [pySlice, h]

theorem pySlice_subset {α : Type} (l : List α) (k : Int) :
    ∀ x ∈ pySlice l k, x ∈ l := by
  intro x hx
  unfold pySlice at hx
  by_cases h : 0 ≤ k <;> simp [h] at hx <;> exact List.take_subset _ _ hx

theorem takeLast_length {α : Type} (n : Nat) (l : List α) :
    (takeLast n l).length = min n l.length := by
  simp [takeLast]
  omega

theorem takeLast_subset {α : Type} (n : Nat) (l : List α) :
    ∀ x ∈ takeLast n l, x ∈ l := by
  intro x hx
  exact List.drop_subset _ _ hx

theorem takeLast_of_length_eq {α : Type} {n : Nat} {l : List α}
    (h : l.length = n) : takeLast n l = l := by
  simp [takeLast, h]

theorem choice_ok {α : Type} [Inhabited α] (r : Rng) {l : List α} (h : l ≠ []) :
    r.choice l = .ok (l.getD (r.stream r.idx % l.length) default,
      ⟨r.stream, r.idx + 1⟩) := by
  unfold Rng.choice
  rw [if_neg]
  simpa using h

theorem choice_ok_mem {α : Type} [Inhabited α] {r r' : Rng} {l : List α} {a : α}
    (h : r.choice l = .ok (a, r')) : a ∈ l := by
  unfold Rng.choice at h
  by_cases hl : l.length = 0
  · rw [if_pos hl] at h
    cases h
  · rw [if_neg hl] at h
    have hidx : r.stream r.idx % l.length < l.length :=
      Nat.mod_lt _ (Nat.pos_of_ne_zero hl)
    have ha : l.getD (r.stream r.idx % l.length) default = a := by
      cases h
      rfl
    rw [List.getD_eq_getElem l default hidx] at ha
    rw [← ha]
    exact List.getElem_mem hidx

theorem assocGet_mem {m : List (List Nat × List Nat)} {k v : List Nat}
    (h : assocGet m k = some v) : (k, v) ∈ m := by
  induction m with
  | nil => cases h
  | cons kv rest ih =>
    obtain ⟨k', v'⟩ := kv
    unfold assocGet at h
    by_cases hk : k' = k
    · rw [if_pos hk] at h
      cases h
      subst hk
      exact List.mem_cons_self _ _
    · rw [if_neg hk] at h
      exact List.mem_cons_of_mem _ (ih h)

theorem assocAppend_ne_nil (m : List (List Nat × List Nat)) (k : List Nat)
    (v : Nat) : assocAppend m k v ≠ [] := by
  cases m with
  | nil => simp [assocAppend]
  | cons kv rest =>
    obtain ⟨k', vs⟩ := kv
    unfold assocAppend
    by_cases hk : k' = k <;> simp [hk]

theorem assocAppend_keys_length {n : Nat} :
    ∀ (m : List (List Nat × List Nat)) (k : List Nat) (v : Nat),
      (∀ kv ∈ m, kv.1.length = n) → k.length = n →
      ∀ kv ∈ assocAppend m k v, kv.1.length = n := by
  intro m
  induction m with
  | nil =>
    intro k v _ hk kv hkv
    unfold assocAppend at hkv
    simp at hkv
    rw [hkv]
    exact hk
  | cons kv0 rest ih =>
    intro k v hm hk kv hkv
    obtain ⟨k', vs⟩ := kv0
    unfold assocAppend at hkv
    by_cases hke : k' = k
    · rw [if_pos hke] at hkv
      rcases List.mem_cons.mp hkv with h1 | h2
      · rw [h1]
        exact hm (k', vs) (List.mem_cons_self _ _)
      · exact hm kv (List.mem_cons_of_mem _ h2)
    · rw [if_neg hke] at hkv
      rcases List.mem_cons.mp hkv with h1 | h2
      · rw [h1]
        exact hm (k', vs) (List.mem_cons_self _ _)
      · exact ih k v (fun q hq => hm q (List.mem_cons_of_mem _ hq)) hk kv h2

theorem assocAppend_subset {S : List Nat} :
    ∀ (m : List (List Nat × List Nat)) (k : List Nat) (v : Nat),
      (∀ kv ∈ m, (∀ x ∈ kv.1, x ∈ S) ∧ ∀ x ∈ kv.2, x ∈ S) →
      (∀ x ∈ k, x ∈ S) → v ∈ S →
      ∀ kv ∈ assocAppend m k v, (∀ x ∈ kv.1, x ∈ S) ∧ ∀ x ∈ kv.2, x ∈ S := by
  intro m
  induction m with
  | nil =>
    intro k v _ hk hv kv hkv
    unfold assocAppend at hkv
    simp at hkv
    rw [hkv]
    exact ⟨hk, by simpa using hv⟩
  | cons kv0 rest ih =>
    intro k v hm hk hv kv hkv
    obtain ⟨k', vs⟩ := kv0
    unfold assocAppend at hkv
    by_cases hke : k' = k
    · rw [if_pos hke] at hkv
      rcases List.mem_cons.mp hkv with h1 | h2
      · rw [h1]
        have := hm (k', vs) (List.mem_cons_self _ _)
        refine ⟨this.1, ?_⟩
        intro x hx
        rcases List.mem_append.mp hx with hx1 | hx2
        · exact this.2 x hx1
        · simp at hx2
          rw [hx2]
          exact hv
      · exact hm kv (List.mem_cons_of_mem _ h2)
    · rw [if_neg hke] at hkv
      rcases List.mem_cons.mp hkv with h1 | h2
      · rw [h1]
        exact hm (k', vs) (List.mem_cons_self _ _)
      · exact ih k v (fun q hq => hm q (List.mem_cons_of_mem _ hq)) hk hv kv h2

theorem buildLoop_keys_length {n : Nat} :
    ∀ (notes window : List Nat) (m : List (List Nat × List Nat)),
      (∀ kv ∈ m, kv.1.length = n) →
      ∀ kv ∈ buildLoop n notes window m, kv.1.length = n := by
  intro notes
  induction notes with
  | nil =>
    intro window m hm
    exact hm
  | cons note rest ih =>
    intro window m hm
    unfold buildLoop
    by_cases hw : window.length = n
    · rw [if_pos hw]
      exact ih _ _ (assocAppend_keys_length m window note hm hw)
    · rw [if_neg hw]
      exact ih _ _ hm

theorem buildModel_keys_length (seq : List Nat) (n : Nat) :
    ∀ kv ∈ buildModel seq n, kv.1.length = n :=
  buildLoop_keys_length seq [] [] (by intro kv h; cases h)

theorem buildLoop_subset {S : List Nat} {n : Nat} :
    ∀ (notes window : List Nat) (m : List (List Nat × List Nat)),
      (∀ x ∈ notes, x ∈ S) → (∀ x ∈ window, x ∈ S) →
      (∀ kv ∈ m, (∀ x ∈ kv.1, x ∈ S) ∧ ∀ x ∈ kv.2, x ∈ S) →
      ∀ kv ∈ buildLoop n notes window m,
        (∀ x ∈ kv.1, x ∈ S) ∧ ∀ x ∈ kv.2, x ∈ S := by
  intro notes
  induction notes with
  | nil =>
    intro window m _ _ hm
    exact hm
  | cons note rest ih =>
    intro window m hnotes hwin hm
    have hnote : note ∈ S := hnotes note (List.mem_cons_self _ _)
    have hrest : ∀ x ∈ rest, x ∈ S :=
      fun x hx => hnotes x (List.mem_cons_of_mem _ hx)
    have hwin' : ∀ x ∈ takeLast n (window ++ [note]), x ∈ S := by
      intro x hx
      rcases List.mem_append.mp (takeLast_subset _ _ x hx) with h1 | h2
      · exact hwin x h1
      · simp at h2
        rw [h2]
        exact hnote
    unfold buildLoop
    by_cases hw : window.length = n
    · rw [if_pos hw]
      exact ih _ _ hrest hwin' (assocAppend_subset m window note hm hwin hnote)
    · rw [if_neg hw]
      exact ih _ _ hrest hwin' hm

theorem buildModel_subset (seq : List Nat) (n : Nat) :
    ∀ kv ∈ buildModel seq n, (∀ x ∈ kv.1, x ∈ seq) ∧ ∀ x ∈ kv.2, x ∈ seq :=
  buildLoop_subset seq [] [] (fun _ hx => hx) (by intro x h; cases h)
    (by intro kv h; cases h)

theorem buildLoop_ne_nil_of_ne_nil {n : Nat} :
    ∀ (notes window : List Nat) (m : List (List Nat × List Nat)),
      m ≠ [] → buildLoop n notes window m ≠ [] := by
  intro notes
  induction notes with
  | nil =>
    intro window m hm
    exact hm
  | cons note rest ih =>
    intro window m hm
    unfold buildLoop
    by_cases hw : window.length = n
    · rw [if_pos hw]
      exact ih _ _ (assocAppend_ne_nil m window note)
    · rw [if_neg hw]
      exact ih _ _ hm

theorem buildLoop_ne_nil {n : Nat} :
    ∀ (notes window : List Nat) (m : List (List Nat × List Nat)),
      window.length ≤ n → n < window.length + notes.length →
      buildLoop n notes window m ≠ [] := by
  intro notes
  induction notes with
  | nil =>
    intro window m hle hlt
    simp at hlt
    omega
  | cons note rest ih =>
    intro window m hle hlt
    unfold buildLoop
    by_cases hw : window.length = n
    · rw [if_pos hw]
      exact buildLoop_ne_nil_of_ne_nil _ _ _ (assocAppend_ne_nil m window note)
    · rw [if_neg hw]
      have hlen : (takeLast n (window ++ [note])).length = window.length + 1 := by
        rw [takeLast_length]
        simp
        omega
      apply ih
      · rw [hlen]
        omega
      · rw [hlen]
        simp at hlt ⊢
        omega

theorem buildModel_ne_nil (seq : List Nat) (n : Nat) (h : n < seq.length) :
    buildModel seq n ≠ [] :=
  buildLoop_ne_nil seq [] [] (by simp) (by simpa using h)

theorem sampleLoop_exit {model : List (List Nat × List Nat)} {len : Int}
    {fuel : Nat} {state : List Nat} {maxlen : Nat} {output : List Nat} {rng : Rng}
    (h : ¬ (output.length : Int) < len) :
    sampleLoop model len fuel state maxlen output rng = .ok (pySlice output len) := by
  cases fuel with
  | zero => rw [sampleLoop, if_neg h]
  | succ fuel => rw [sampleLoop, if_neg h]

theorem sampleLoop_zero {model : List (List Nat × List Nat)} {len : Int}
    {state : List Nat} {maxlen : Nat} {output : List Nat} {rng : Rng}
    (h : (output.length : Int) < len) :
    sampleLoop model len 0 state maxlen output rng = .error .outOfFuel := by
  rw [sampleLoop, if_pos h]

theorem sampleLoop_recovery_err {model : List (List Nat × List Nat)} {len : Int}
    {fuel : Nat} {state : List Nat} {maxlen : Nat} {output : List Nat} {rng : Rng}
    {e : PyError} (h : (output.length : Int) < len)
    (hopt : ((assocGet model state).getD []).isEmpty = true)
    (hch : rng.choice (model.map Prod.fst) = .error e) :
    sampleLoop model len (fuel + 1) state maxlen output rng = .error e := by
  rw [sampleLoop, if_pos h]
  simp only [hopt, if_true, hch]

theorem sampleLoop_recovery {model : List (List Nat × List Nat)} {len : Int}
    {fuel : Nat} {state : List Nat} {maxlen : Nat} {output : List Nat}
    {rng rng' : Rng} {k : List Nat} (h : (output.length : Int) < len)
    (hopt : ((assocGet model state).getD []).isEmpty = true)
    (hch : rng.choice (model.map Prod.fst) = .ok (k, rng')) :
    sampleLoop model len (fuel + 1) state maxlen output rng =
      sampleLoop model len fuel (takeLast state.length k) state.length
        (output ++ takeLast state.length k) rng' := by
  rw [sampleLoop, if_pos h]
  simp only [hopt, if_true, hch]

theorem sampleLoop_step_err {model : List (List Nat × List Nat)} {len : Int}
    {fuel : Nat} {state : List Nat} {maxlen : Nat} {output : List Nat} {rng : Rng}
    {e : PyError} (h : (output.length : Int) < len)
    (hopt : ((assocGet model state).getD []).isEmpty = false)
    (hch : rng.choice ((assocGet model state).getD []) = .error e) :
    sampleLoop model len (fuel + 1) state maxlen output rng = .error e := by
  rw [sampleLoop, if_pos h]
  simp only [hopt, Bool.false_eq_true, if_false, hch]

theorem sampleLoop_step {model : List (List Nat × List Nat)} {len : Int}
    {fuel : Nat} {state : List Nat} {maxlen : Nat} {output : List Nat}
    {rng rng' : Rng} {next : Nat} (h : (output.length : Int) < len)
    (hopt : ((assocGet model state).getD []).isEmpty = false)
    (hch : rng.choice ((assocGet model state).getD []) = .ok (next, rng')) :
    sampleLoop model len (fuel + 1) state maxlen output rng =
      sampleLoop model len fuel (takeLast maxlen (state ++ [next])) maxlen
        (output ++ [next]) rng' := by
  rw [sampleLoop, if_pos h]
  simp only [hopt, Bool.false_eq_true, if_false, hch]

theorem sampleLoop_prefix (model : List (List Nat × List Nat)) (len : Int) :
    ∀ (fuel : Nat) (state : List Nat) (maxlen : Nat) (output : List Nat)
      (rng : Rng) (out : List Nat),
      sampleLoop model len fuel state maxlen output rng = .ok out →
      ∃ rest, out = pySlice (output ++ rest) len := by
  intro fuel
  induction fuel with
  | zero =>
    intro state maxlen output rng out h
    by_cases hc : (output.length : Int) < len
    · rw [sampleLoop_zero hc] at h
      cases h
    · rw [sampleLoop_exit hc] at h
      injection h with h'
      exact ⟨[], by rw [List.append_nil, h']⟩
  | succ fuel ih =>
    intro state maxlen output rng out h
    by_cases hc : (output.length : Int) < len
    · by_cases hopt : ((assocGet model state).getD []).isEmpty = true
      · cases hch : rng.choice (model.map Prod.fst) with
        | error e =>
          rw [sampleLoop_recovery_err hc hopt hch] at h
          cases h
        | ok pr =>
          obtain ⟨k, rng'⟩ := pr
          rw [sampleLoop_recovery hc hopt hch] at h
          obtain ⟨rest, hrest⟩ := ih _ _ _ _ _ h
          exact ⟨takeLast state.length k ++ rest, by
            rw [← List.append_assoc]
            exact hrest⟩
      · have hopt' : ((assocGet model state).getD []).isEmpty = false := by
          simpa using hopt
        cases hch : rng.choice ((assocGet model state).getD []) with
        | error e =>
          rw [sampleLoop_step_err hc hopt' hch] at h
          cases h
        | ok pr =>
          obtain ⟨next, rng'⟩ := pr
          rw [sampleLoop_step hc hopt' hch] at h
          obtain ⟨rest, hrest⟩ := ih _ _ _ _ _ h
          exact ⟨next :: rest, by
            rw [← List.singleton_append, ← List.append_assoc]
            exact hrest⟩
    · rw [sampleLoop_exit hc] at h
      injection h with h'
      exact ⟨[], by rw [List.append_nil, h']⟩

theorem sampleLoop_mem (model : List (List Nat × List Nat)) (len : Int)
    (S : List Nat)
    (hmodel : ∀ kv ∈ model, (∀ x ∈ kv.1, x ∈ S) ∧ ∀ x ∈ kv.2, x ∈ S) :
    ∀ (fuel : Nat) (state : List Nat) (maxlen : Nat) (output : List Nat)
      (rng : Rng) (out : List Nat),
      (∀ x ∈ output, x ∈ S) →
      sampleLoop model len fuel state maxlen output rng = .ok out →
      ∀ x ∈ out, x ∈ S := by
  intro fuel
  induction fuel with
  | zero =>
    intro state maxlen output rng out hout h
    by_cases hc : (output.length : Int) < len
    · rw [sampleLoop_zero hc] at h
      cases h
    · rw [sampleLoop_exit hc] at h
      injection h with h'
      intro x hx
      rw [← h'] at hx
      exact hout x (pySlice_subset _ _ x hx)
  | succ fuel ih =>
    intro state maxlen output rng out hout h
    by_cases hc : (output.length : Int) < len
    · by_cases hopt : ((assocGet model state).getD []).isEmpty = true
      · cases hch : rng.choice (model.map Prod.fst) with
        | error e =>
          rw [sampleLoop_recovery_err hc hopt hch] at h
          cases h
        | ok pr =>
          obtain ⟨k, rng'⟩ := pr
          rw [sampleLoop_recovery hc hopt hch] at h
          have hkmem : k ∈ model.map Prod.fst := choice_ok_mem hch
          obtain ⟨kv, hkv, hkveq⟩ := List.mem_map.mp hkmem
          have hkS : ∀ x ∈ k, x ∈ S := by
            rw [← hkveq]
            exact (hmodel kv hkv).1
          refine ih _ _ _ _ _ ?_ h
          intro x hx
          rcases List.mem_append.mp hx with h1 | h2
          · exact hout x h1
          · exact hkS x (takeLast_subset _ _ x h2)
      · have hopt' : ((assocGet model state).getD []).isEmpty = false := by
          simpa using hopt
        cases hch : rng.choice ((assocGet model state).getD []) with
        | error e =>
          rw [sampleLoop_step_err hc hopt' hch] at h
          cases h
        | ok pr =>
          obtain ⟨next, rng'⟩ := pr
          rw [sampleLoop_step hc hopt' hch] at h
          have hnmem : next ∈ (assocGet model state).getD [] := choice_ok_mem hch
          have hnS : next ∈ S := by
            cases hget : assocGet model state with
            | none =>
              rw [hget] at hnmem
              cases hnmem
            | some vs =>
              rw [hget] at hnmem
              exact (hmodel (state, vs) (assocGet_mem hget)).2 next hnmem
          refine ih _ _ _ _ _ ?_ h
          intro x hx
          rcases List.mem_append.mp hx with h1 | h2
          · exact hout x h1
          · simp at h2
            rw [h2]
            exact hnS
    · rw [sampleLoop_exit hc] at h
      injection h with h'
      intro x hx
      rw [← h'] at hx
      exact hout x (pySlice_subset _ _ x hx)

theorem sampleLoop_ok (model : List (List Nat × List Nat)) (len : Int) (n : Nat)
    (hkeys : ∀ kv ∈ model, kv.1.length = n) (hmne : model ≠ [])
    (hn : 1 ≤ n) (hlen0 : 0 ≤ len) :
    ∀ (fuel : Nat) (state : List Nat) (maxlen : Nat) (output : List Nat)
      (rng : Rng),
      1 ≤ state.length → 1 ≤ maxlen →
      len < (output.length : Int) + fuel →
      ∃ out, sampleLoop model len fuel state maxlen output rng = .ok out ∧
        out.length = len.toNat := by
  intro fuel
  induction fuel with
  | zero =>
    intro state maxlen output rng hst hml hfuel
    have hc : ¬ (output.length : Int) < len := by
      simp at hfuel
      omega
    refine ⟨pySlice output len, sampleLoop_exit hc, ?_⟩
    rw [pySlice_nonneg _ hlen0, List.length_take]
    omega
  | succ fuel ih =>
    intro state maxlen output rng hst hml hfuel
    by_cases hc : (output.length : Int) < len
    · by_cases hopt : ((assocGet model state).getD []).isEmpty = true
      · have hkne : model.map Prod.fst ≠ [] := by
          simpa using hmne
        have hch := choice_ok rng hkne
        set k := (model.map Prod.fst).getD
          (rng.stream rng.idx % (model.map Prod.fst).length) default with hk
        have hkmem : k ∈ model.map Prod.fst := choice_ok_mem hch
        obtain ⟨kv, hkv, hkveq⟩ := List.mem_map.mp hkmem
        have hklen : k.length = n := by
          rw [← hkveq]
          exact hkeys kv hkv
        rw [sampleLoop_recovery hc hopt hch]
        have hstlen : 1 ≤ (takeLast state.length k).length := by
          rw [takeLast_length, hklen]
          omega
        apply ih _ _ _ _ hstlen hst
        rw [List.length_append]
        push_cast
        push_cast at hfuel
        have := hstlen
        omega
      · have hopt' : ((assocGet model state).getD []).isEmpty = false := by
          simpa using hopt
        have hvne : (assocGet model state).getD [] ≠ [] := by
          intro hcon
          rw [hcon] at hopt'
          simp at hopt'
        have hch := choice_ok rng hvne
        set next := ((assocGet model state).getD []).getD
          (rng.stream rng.idx % ((assocGet model state).getD []).length) default
          with hnext
        rw [sampleLoop_step hc hopt' hch]
        have hstlen : 1 ≤ (takeLast maxlen (state ++ [next])).length := by
          rw [takeLast_length, List.length_append]
          simp
          omega
        apply ih _ _ _ _ hstlen hml
        rw [List.length_append]
        push_cast
        push_cast at hfuel
        simp
        omega
    · refine ⟨pySlice output len, sampleLoop_exit hc, ?_⟩
      rw [pySlice_nonneg _ hlen0, List.length_take]
      simp at hc
      omega

theorem sampleNotes_ok (model : List (List Nat × List Nat)) (seedState : List Nat)
    (len : Int) (rng : Rng) (n : Nat)
    (hkeys : ∀ kv ∈ model, kv.1.length = n) (hmne : model ≠ [])
    (hn : 1 ≤ n) (hlen0 : 0 ≤ len) (hseed : 1 ≤ seedState.length) :
    ∃ out, sampleNotes model seedState len rng = .ok out ∧
      out.length = len.toNat := by
  unfold sampleNotes
  apply sampleLoop_ok model len n hkeys hmne hn hlen0 _ _ _ _ _ hseed hseed
  have h1 := Int.self_le_toNat len
  push_cast
  omega

/-! ## Claim theorems -/

/-- C1 (code bug): `_chord_name_from_pitch_classes` compares
`triad = tuple(intervals[:3])`, a tuple of length at most 3, against the
4-tuples `(0,4,7,11)` and `(0,3,7,10)`, so those branches can never match:
the pitch-class set `{0,4,7,11}` is labelled `"C"` (the major-triad branch
fires on its first three intervals), not the documented `"Cmaj7"`, and
`{0,3,7,10}` is labelled `"Cm"`, not `"Cm7"`.  The triad rows of the table
do behave as documented on the cited voicings. -/
theorem chord_label_seventh_branches_unreachable :
    chordNameFromPitchClasses [0, 4, 7, 11] = "C" ∧
    chordNameFromPitchClasses [0, 4, 7, 11] ≠ "Cmaj7" ∧
    chordNameFromPitchClasses [0, 3, 7, 10] = "Cm" ∧
    chordNameFromPitchClasses [0, 4, 7] = "C" ∧
    chordNameFromPitchClasses [4, 7, 12] = "C" ∧
    chordNameFromPitchClasses [16, 19, 24] = "C" ∧
    chordNameFromPitchClasses [0, 3, 7] = "Cm" := by
  refine ⟨rfl, ?_, rfl, rfl, rfl, rfl, rfl⟩
  decide

/-- C9: chord labeling is total: the empty pitch set yields the `"N.C."`
sentinel, and any non-empty pitch set none of whose candidate roots matches
the lookup table yields the fallback label joining the note names of its
pitch classes in ascending order with `"+"`. -/
theorem chord_label_total :
    chordNameFromPitchClasses [] = "N.C." ∧
    ∀ pitches : List Nat, pitches ≠ [] →
      (∀ root ∈ normalizePitchSet pitches,
        tryRoot (normalizePitchSet pitches) root = none) →
      chordNameFromPitchClasses pitches =
        String.intercalate "+" ((normalizePitchSet pitches).map noteName) := by
  refine ⟨rfl, ?_⟩
  intro pitches hne hroots
  have hfind : (normalizePitchSet pitches).findSome?
      (tryRoot (normalizePitchSet pitches)) = none := by
    rw [List.findSome?_eq_none_iff]
    exact hroots
  simp [chordNameFromPitchClasses, hne, hfind]

/-- Witness for C9 at the unrecognized set `{0,1,2}`. -/
theorem chord_label_total_witness :
    chordNameFromPitchClasses [0, 1, 2] =
      String.intercalate "+" ((normalizePitchSet [0, 1, 2]).map noteName) ∧
    String.intercalate "+" ((normalizePitchSet [0, 1, 2]).map noteName) = "C+C#+D" :=
  ⟨chord_label_total.2 [0, 1, 2] (by decide) (by decide), by decide⟩

/-- C5 counterexample: `_find_tempo` scans track by track, not in temporal
order across tracks.  Here the first track's only tempo event lies at
absolute tick 100 while the second track holds one at tick 0; the code
returns the first track's tempo 600000, whereas the temporally first tempo
event is 400000. -/
theorem find_tempo_not_temporal :
    findTempo tempoCounterexampleFile = 600000 ∧
    findTempoSpec tempoCounterexampleFile = 400000 ∧
    (600000 : Nat) ≠ 400000 := by
  refine ⟨rfl, rfl, ?_⟩
  decide

/-- C5 (amended): the tempo used by the chord analyzer is the first
tempo-change event found scanning the tracks in track order (each track's
events in sequence order) — the first tempo event of the first track that
contains one; if no track contains a tempo event, the 120-BPM default of
500000 microseconds per quarter note is used. -/
theorem find_tempo_track_order (m : MidiFile) :
    findTempo m = (((m.tracks.map tempoList).flatten).head?).getD 500000 := by
  unfold findTempo
  rw [tracks_findSome_eq_flatten_head]
  cases ((m.tracks.map tempoList).flatten).head? <;> rfl

/-- C6: whenever the note sequence extracted from the input MIDI has fewer
than 4 notes, `generate` fails with the `ValueError` "Input MIDI is too
short to build a Markov model" and produces no output, for every parameter
mapping and every seed stream. -/
theorem markov_rejects_short_input (mt : Int → Nat → Nat) (seq : List Nat)
    (p : Params) (h : seq.length < 4) :
    markovGenerate mt seq p =
      .error (.valueError "Input MIDI is too short to build a Markov model") := by
  simp [markovGenerate, h]

/-- Witness for C6 on a 3-note sequence. -/
theorem markov_rejects_short_input_witness :
    ([60, 61, 62] : List Nat).length < 4 ∧
    markovGenerate (fun _ _ => 0) [60, 61, 62] ⟨none, none, none⟩ =
      .error (.valueError "Input MIDI is too short to build a Markov model") :=
  ⟨by decide, markov_rejects_short_input (fun _ _ => 0) [60, 61, 62]
    ⟨none, none, none⟩ (by decide)⟩

/-- C3: `generate` is deterministic: its result is a function of the note
sequence, the parameter mapping, and the random stream that
`random.Random(seed)` derives from the seed — the generator is freshly
seeded inside each call (`mkRng`, position 0) and no other state enters.
Two calls whose seed yields the same stream produce identical outputs. -/
theorem markov_deterministic (mt₁ mt₂ : Int → Nat → Nat) (seq : List Nat)
    (p : Params) (h : mt₁ (getParamSeed p) = mt₂ (getParamSeed p)) :
    markovGenerate mt₁ seq p = markovGenerate mt₂ seq p := by
  simp only [markovGenerate, h]

/-- Witness for C3: two textually separate calls with the same arguments
agree. -/
theorem markov_deterministic_witness :
    markovGenerate (fun _ _ => 0) [60, 62, 64, 60, 62, 64, 67, 65]
        ⟨some 2, some 8, some 42⟩ =
      markovGenerate (fun _ _ => 0) [60, 62, 64, 60, 62, 64, 67, 65]
        ⟨some 2, some 8, some 42⟩ :=
  markov_deterministic (fun _ _ => 0) (fun _ _ => 0)
    [60, 62, 64, 60, 62, 64, 67, 65] ⟨some 2, some 8, some 42⟩ rfl

/-- C4 counterexample: `generate` performs no clamping against the declared
bounds.  With `length = 4` (below the declared minimum 8) it succeeds and
returns exactly 4 notes, so the out-of-range value was used as-is. -/
theorem markov_uses_unclamped_length :
    markovGenerate (fun _ _ => 0) [60, 61, 62, 63, 64, 65, 66, 67]
        ⟨some 2, some 4, some 42⟩ = .ok [60, 61, 62, 63] ∧
    ((4 : Int) < 8 ∧ (8 : Int) ∈ (describeParameters.map (fun q => q.2.1))) :=
  ⟨rfl, by decide⟩

/-- C4 (amended): `generate` applies the declared defaults
(`state_size = 2`, `length = 32`, `seed = 42`) whenever a key is absent
from the parameter mapping, but it does not validate or clamp supplied
values against the declared bounds. -/
theorem markov_applies_defaults (mt : Int → Nat → Nat) (seq : List Nat) :
    markovGenerate mt seq ⟨none, none, none⟩ =
      markovGenerate mt seq ⟨some 2, some 32, some 42⟩ ∧
    getParamStateSize ⟨none, none, none⟩ = 2 ∧
    getParamLength ⟨none, none, none⟩ = 32 ∧
    getParamSeed ⟨none, none, none⟩ = 42 :=
  ⟨rfl, rfl, rfl, rfl⟩

theorem assocSet_ne_nil (m : List (String × ModuleInstance)) (k : String)
    (v : ModuleInstance) : assocSet m k v ≠ [] := by
  cases m with
  | nil => simp [assocSet]
  | cons kv rest =>
    obtain ⟨k', v'⟩ := kv
    unfold assocSet
    by_cases hk : k' = k <;> simp [hk]

theorem foldl_assocSet_ne_nil (run : Nat) :
    ∀ (classes : List String) (m : List (String × ModuleInstance)),
      m ≠ [] →
      classes.foldl (fun acc cls => assocSet acc cls ⟨cls, run⟩) m ≠ [] := by
  intro classes
  induction classes with
  | nil =>
    intro m hm
    exact hm
  | cons c cs ih =>
    intro m hm
    rw [List.foldl_cons]
    exact ih _ (assocSet_ne_nil m c ⟨c, run⟩)

theorem discover_modules_ne_nil {classes : List String} (h : classes ≠ [])
    (r : Registry) : (r.discover classes).modules ≠ [] := by
  unfold Registry.discover
  cases classes with
  | nil => exact absurd rfl h
  | cons c cs =>
    simp only [List.foldl_cons]
    exact foldl_assocSet_ne_nil _ cs _ (assocSet_ne_nil _ c _)

/-- C2 counterexample: with an input of exactly 4 notes and
`state_size = 4`, the transition table is empty (the window never fills
before the sequence ends), so the first sampling iteration calls
`rng.choice(list(model.keys()))` on an empty list and raises `IndexError`
instead of returning `length` notes. -/
theorem markov_fails_at_state_size_four :
    markovGenerate (fun _ _ => 0) [60, 61, 62, 63] ⟨some 4, some 8, some 42⟩ =
      .error .indexError := rfl

/-- C2 (amended): for every input note sequence of at least 4 notes that is
strictly longer than `state_size`, every `state_size` in 1–4, every `length`
in 8–128, and every seed, the sampler returns exactly `length` notes (when
`state_size` equals the input length the call instead fails with an
`IndexError`, as the counterexample shows). -/
theorem markov_output_length (mt : Int → Nat → Nat) (seq : List Nat)
    (p : Params) (hseq : 4 ≤ seq.length)
    (hss1 : 1 ≤ getParamStateSize p) (hss4 : getParamStateSize p ≤ 4)
    (hl8 : 8 ≤ getParamLength p) (hl128 : getParamLength p ≤ 128)
    (hgt : getParamStateSize p < (seq.length : Int)) :
    ∃ out, markovGenerate mt seq p = .ok out ∧
      out.length = (getParamLength p).toNat := by
  have h4 : ¬ seq.length < 4 := by omega
  have hss0 : ¬ getParamStateSize p < 0 := by omega
  unfold markovGenerate
  rw [if_neg h4, if_neg hss0]
  apply sampleNotes_ok _ _ _ _ (getParamStateSize p).toNat
  · exact buildModel_keys_length seq _
  · apply buildModel_ne_nil
    omega
  · omega
  · omega
  · rw [pySlice_nonneg _ (by omega), List.length_take]
    omega

/-- Witness for the amended C2 on the spec's own end-to-end example
sequence with `state_size = 2`, `length = 8`, seed stream constant 0. -/
theorem markov_output_length_witness :
    4 ≤ ([60, 62, 64, 60, 62, 64, 67, 65] : List Nat).length ∧
    ∃ out, markovGenerate (fun _ _ => 0) [60, 62, 64, 60, 62, 64, 67, 65]
        ⟨some 2, some 8, some 42⟩ = .ok out ∧
      out.length = (getParamLength ⟨some 2, some 8, some 42⟩).toNat :=
  ⟨by decide, markov_output_length (fun _ _ => 0) [60, 62, 64, 60, 62, 64, 67, 65]
    ⟨some 2, some 8, some 42⟩ (by decide) (by decide) (by decide) (by decide)
    (by decide) (by decide)⟩

/-- C8: every pitch of a successfully generated output occurs in the input
note sequence (the training pitches together with the seed-state pitches
are all drawn from the input), for every parameter mapping and seed
stream. -/
theorem markov_output_within_input_domain (mt : Int → Nat → Nat)
    (seq : List Nat) (p : Params) (out : List Nat)
    (h : markovGenerate mt seq p = .ok out) :
    ∀ x ∈ out, x ∈ seq := by
  unfold markovGenerate at h
  by_cases h4 : seq.length < 4
  · rw [if_pos h4] at h
    cases h
  · rw [if_neg h4] at h
    by_cases hss : getParamStateSize p < 0
    · rw [if_pos hss] at h
      cases h
    · rw [if_neg hss] at h
      unfold sampleNotes at h
      exact sampleLoop_mem _ _ seq (buildModel_subset seq _) _ _ _ _ _ _
        (fun x hx => pySlice_subset _ _ x hx) h

/-- Witness for C8: a concrete successful generation whose third output
note (pitch 62) is shown to lie in the input sequence by the theorem. -/
theorem markov_output_within_input_domain_witness :
    markovGenerate (fun _ _ => 0) [60, 61, 62, 63] ⟨some 2, some 8, some 42⟩ =
      .ok [60, 61, 62, 63, 60, 61, 62, 63] ∧ (62 : Nat) ∈ [60, 61, 62, 63] :=
  ⟨rfl, markov_output_within_input_domain (fun _ _ => 0) [60, 61, 62, 63]
    ⟨some 2, some 8, some 42⟩ [60, 61, 62, 63, 60, 61, 62, 63] rfl 62 (by decide)⟩

/-- C10: for in-range parameters, a successful output starts with a
verbatim copy of the input's first `state_size` notes (the sampler
initializes its output with the seed state `sequence[:state_size]` before
any random choice, and `state_size ≤ 4 < 8 ≤ length`, so the prefix
survives the final truncation). -/
theorem markov_output_starts_with_seed (mt : Int → Nat → Nat)
    (seq : List Nat) (p : Params) (out : List Nat)
    (hss1 : 1 ≤ getParamStateSize p) (hss4 : getParamStateSize p ≤ 4)
    (hl8 : 8 ≤ getParamLength p) (hseq : 4 ≤ seq.length)
    (h : markovGenerate mt seq p = .ok out) :
    out.take (getParamStateSize p).toNat =
      seq.take (getParamStateSize p).toNat := by
  have h4 : ¬ seq.length < 4 := by omega
  have hss0 : ¬ getParamStateSize p < 0 := by omega
  unfold markovGenerate at h
  rw [if_neg h4, if_neg hss0] at h
  unfold sampleNotes at h
  obtain ⟨rest, hrest⟩ := sampleLoop_prefix _ _ _ _ _ _ _ _ h
  rw [pySlice_nonneg _ (by omega : (0:Int) ≤ getParamLength p),
    pySlice_nonneg _ (by omega : (0:Int) ≤ getParamStateSize p)] at hrest
  rw [hrest, List.take_take]
  have hmin : min (getParamStateSize p).toNat (getParamLength p).toNat =
      (getParamStateSize p).toNat := by omega
  rw [hmin]
  apply List.take_left'
  rw [List.length_take]
  omega

/-- Witness for C10 on the spec's end-to-end example: the 8-note output
starts with the input's first two notes `[60, 62]`. -/
theorem markov_output_starts_with_seed_witness :
    markovGenerate (fun _ _ => 0) [60, 62, 64, 60, 62, 64, 67, 65]
        ⟨some 2, some 8, some 42⟩ = .ok [60, 62, 64, 60, 62, 64, 60, 62] ∧
    ([60, 62, 64, 60, 62, 64, 60, 62] : List Nat).take
        (getParamStateSize ⟨some 2, some 8, some 42⟩).toNat =
      ([60, 62, 64, 60, 62, 64, 67, 65] : List Nat).take
        (getParamStateSize ⟨some 2, some 8, some 42⟩).toNat :=
  ⟨rfl, markov_output_starts_with_seed (fun _ _ => 0)
    [60, 62, 64, 60, 62, 64, 67, 65] ⟨some 2, some 8, some 42⟩
    [60, 62, 64, 60, 62, 64, 60, 62] (by decide) (by decide) (by decide)
    (by decide) rfl⟩

/-- C7 counterexample: discovery is re-run whenever the cache is empty, so
with an empty scan result (`classes = []`) two `all()` calls run
`_discover` twice — "at most once per process lifetime" fails in that
case. -/
theorem registry_rediscovers_when_empty :
    (Registry.allModules [] (Registry.allModules [] Registry.init).1).1.discoverRuns = 2 ∧
    ¬ (Registry.allModules [] (Registry.allModules [] Registry.init).1).1.discoverRuns ≤ 1 :=
  ⟨rfl, by decide⟩

/-- C7 (amended): discovery is deferred until the first `get`/`all` call;
provided the scan finds at least one module, it runs exactly once: the
first call discovers (run count 1) and populates the cache, and every
subsequent `get` with the same name leaves the registry state untouched
and returns the same cached instance (no re-instantiation), while `all`
reuses the cached index without rescanning.  (With an empty scan result the
code rescans on every access, as the counterexample shows.) -/
theorem registry_lazy_single_discovery (classes : List String) (name : String)
    (h : classes ≠ []) :
    Registry.init.discoverRuns = 0 ∧
    (Registry.getModule classes Registry.init name).1.discoverRuns = 1 ∧
    Registry.getModule classes (Registry.getModule classes Registry.init name).1 name =
      ((Registry.getModule classes Registry.init name).1,
        (Registry.getModule classes Registry.init name).2) ∧
    Registry.allModules classes (Registry.allModules classes Registry.init).1 =
      ((Registry.allModules classes Registry.init).1,
        (Registry.allModules classes Registry.init).1.modules.map Prod.snd) ∧
    (Registry.allModules classes Registry.init).1.discoverRuns = 1 := by
  have hne : (Registry.init.discover classes).modules ≠ [] :=
    discover_modules_ne_nil h _
  have hne' : (Registry.discover classes
      { modules := [], discoverRuns := 0 }).modules ≠ [] := hne
  have hr1 : (Registry.getModule classes Registry.init name).1 =
      Registry.init.discover classes := by
    simp [Registry.getModule, Registry.init]
  have hrA : (Registry.allModules classes Registry.init).1 =
      Registry.init.discover classes := by
    simp [Registry.allModules, Registry.init]
  refine ⟨rfl, ?_, ?_, ?_, ?_⟩
  · rw [hr1]
    rfl
  · rw [hr1]
    simp [Registry.getModule, Registry.init, hne']
  · rw [hrA]
    simp [Registry.allModules, Registry.init, hne']
  · rw [hrA]
    rfl

/-- Witness for the amended C7 with the two module names the repository's
scan path actually yields. -/
theorem registry_lazy_single_discovery_witness :
    (["Markov Chain (Melody)", "Offline GAN Groove"] : List String) ≠ [] ∧
    (Registry.getModule ["Markov Chain (Melody)", "Offline GAN Groove"]
      Registry.init "Markov Chain (Melody)").1.discoverRuns = 1 :=
  ⟨by decide, (registry_lazy_single_discovery
    ["Markov Chain (Melody)", "Offline GAN Groove"] "Markov Chain (Melody)"
    (by decide)).2.1⟩

end GanMidi
